import Mathlib

/-!
Verification of the batch data loader `ingest_data.py`.

The program loads a Parquet or CSV file into a database table in chunks of
100000 rows: batch 0 issues a create-or-replace of the table from the chunk's
column schema (zero rows) followed by an append, every later batch issues an
append only.  We embed the program as a trace of observable events (prints,
connection creation, SQL operations) and prove the specification's claims
about those traces and about the resulting table state.
-/

namespace IngestData

/-- A cell value: either a raw (string-like) value or a date-time value
obtained from coercion.  `pd.to_datetime` is modelled by `toDatetime`. -/
inductive Value where
  | raw : String → Value
  | datetime : String → Value
deriving DecidableEq

/-- Model of `pd.to_datetime` applied to one cell: coerces a raw value to a
date-time value and is the identity on values that are already date-time. -/
def toDatetime : Value → Value
  | .raw s => .datetime s
  | .datetime s => .datetime s

/-- Whether a cell holds a date-time value. -/
def Value.isDatetime : Value → Bool
  | .raw _ => false
  | .datetime _ => true

/-- A row is the list of its cell values, one per column. -/
abbrev Row := List Value

/-- Column dtype as seen by pandas after `read_parquet`: datetime64 or not.
Only this distinction matters to the program (`select_dtypes(['datetime64'])`). -/
inductive Dtype where
  | datetime64 : Dtype
  | other : Dtype
deriving DecidableEq

/-- The in-memory table produced by `pd.read_parquet`: named, dtyped columns
and the data rows. -/
structure DataFrame where
  columns : List (String × Dtype)
  rows : List Row
deriving DecidableEq

/-- The logical content of a CSV (or gzipped CSV) file: the header column
names and the data rows.  `read_csv` decompresses `.gz` transparently, so the
file is represented by its decompressed content. -/
structure CsvFile where
  columns : List String
  rows : List Row
deriving DecidableEq

/-- The command-line parameters consumed by the script. -/
structure Params where
  user : String
  password : String
  host : String
  port : String
  db : String
  table_name : String
  file_path : String
deriving DecidableEq

/-- The SQLAlchemy connection URL built by both ingestion functions. -/
def connUrl (p : Params) : String :=
  "postgresql://" ++ p.user ++ ":" ++ p.password ++ "@" ++ p.host ++ ":" ++
    p.port ++ "/" ++ p.db

/-- The fixed batch size `chunk_size = 100000`. -/
def chunkSize : Nat := 100000

/-- A SQL write issued through `DataFrame.to_sql`: create-or-replace
(`if_exists='replace'`) or append (`if_exists='append'`), carrying the frame's
table name, column names and rows. -/
inductive SqlOp where
  | replace : String → List String → List Row → SqlOp
  | append : String → List String → List Row → SqlOp
deriving DecidableEq

/-- Whether an operation is an append. -/
def SqlOp.isAppend : SqlOp → Bool
  | .append _ _ _ => true
  | .replace _ _ _ => false

/-- Observable events of a run, in program order. -/
inductive Event where
  | connect : String → Event
  | printDetectedParquet : Event
  | printDetectedCsv : Event
  | printReading : String → Event
  | printLoaded : Nat → Event
  | printColumns : List String → Event
  | printDetectedDatetime : List String → Event
  | printInserting : String → Event
  | sql : SqlOp → Event
  | progressParquet : Nat → Nat → Nat → Nat → Event
  | progressCsv : Nat → Nat → Event
  | printSuccess : Event
  | printUnsupported : Event
deriving DecidableEq

/-- Whether an event is the creation of a database connection. -/
def Event.isConnect : Event → Bool
  | .connect _ => true
  | _ => false

/-- Project the SQL operation out of an event, if any. -/
def Event.sqlOp : Event → Option SqlOp
  | .sql op => some op
  | _ => none

/-- Whether an event is a SQL write. -/
def Event.isSql : Event → Bool
  | .sql _ => true
  | _ => false

/-- Project the `(chunk number, total chunks)` pair printed by a Parquet
per-chunk progress line, if any. -/
def Event.parquetProgressInfo : Event → Option (Nat × Nat)
  | .progressParquet no tot _ _ => some (no, tot)
  | _ => none

/-- The SQL operations of a trace, in order. -/
def sqlOps (evts : List Event) : List SqlOp :=
  evts.filterMap Event.sqlOp

/-- The rows of an append operation, if any. -/
def SqlOp.appendRows : SqlOp → Option (List Row)
  | .append _ _ rows => some rows
  | .replace _ _ _ => none

/-- The row batches appended by a list of operations, in order. -/
def appendedChunks (ops : List SqlOp) : List (List Row) :=
  ops.filterMap SqlOp.appendRows

/-- All rows appended by a list of operations, in order. -/
def appendedRows (ops : List SqlOp) : List Row :=
  (appendedChunks ops).flatten

/-- The `(chunk number, total chunks)` pairs of the Parquet progress lines of
a trace, in order. -/
def parquetProgress (evts : List Event) : List (Nat × Nat) :=
  evts.filterMap Event.parquetProgressInfo

/-- The destination table: column names and rows. -/
structure Table where
  columns : List String
  rows : List Row
deriving DecidableEq

/-- Effect of one `to_sql` call on the (possibly absent) destination table:
`replace` drops any existing table and creates it from the frame, `append`
adds the frame's rows, creating the table if it does not exist. -/
def applyOp (db : Option Table) : SqlOp → Option Table
  | .replace _ cols rows => some ⟨cols, rows⟩
  | .append _ cols rows =>
    match db with
    | none => some ⟨cols, rows⟩
    | some tb => some ⟨tb.columns, tb.rows ++ rows⟩

/-- Run a list of SQL operations against the destination table state. -/
def runOps (db : Option Table) (ops : List SqlOp) : Option Table :=
  ops.foldl applyOp db

/-- Row count of the destination table state. -/
def tableRowCount : Option Table → Nat
  | none => 0
  | some tb => tb.rows.length

/-- Python `str.endswith`, on the character sequence of the string. -/
def pyEndsWith (s suffix : String) : Bool :=
  suffix.toList.isSuffixOf s.toList

/-- Python's substring test `sub in s`, on the character sequence. -/
def pyContains (s sub : String) : Bool :=
  decide (sub.toList <:+: s.toList)

/-- Python `range(0, stop, step)` for `step > 0`: the multiples of `step`
below `stop`, in increasing order. -/
def pyRange0 (stop step : Nat) : List Nat :=
  (List.range ((stop + step - 1) / step)).map (fun i => i * step)

/-- The list `l` partitioned into consecutive chunks of `k` elements, the
last chunk possibly shorter; no empty chunk is produced. -/
def chunksOf (k : Nat) (l : List α) : List (List α) :=
  if h : k = 0 ∨ l.isEmpty = true then []
  else l.take k :: chunksOf k (l.drop k)
termination_by l.length
decreasing_by
  simp only [List.length_drop]
  have hk : k ≠ 0 := fun hk0 => h (Or.inl hk0)
  have hl : l ≠ [] := fun hl0 => h (Or.inr (by simp [hl0]))
  have hpos : 0 < l.length := List.length_pos.mpr hl
  omega

/-- The successive chunks yielded by pandas when reading `rows` with a chunk
size of `chunkSize` (`read_csv(iterator=True, chunksize=chunk_size)`). -/
def chunkList (rows : List Row) : List (List Row) :=
  (pyRange0 rows.length chunkSize).map fun cs => (rows.drop cs).take chunkSize

/-- One cell of the Parquet datetime normalisation: columns whose dtype is
datetime64 (`select_dtypes(include=['datetime64'])`) get `pd.to_datetime`
applied; cells beyond the column list are untouched. -/
def applyParquetDatetime : List (String × Dtype) → Row → Row
  | _, [] => []
  | [], vs => vs
  | (_, .datetime64) :: cs, v :: vs => toDatetime v :: applyParquetDatetime cs vs
  | (_, .other) :: cs, v :: vs => v :: applyParquetDatetime cs vs

/-- The rows of `df` after the Parquet path's datetime normalisation loop. -/
def parquetTransformRows (df : DataFrame) : List Row :=
  df.rows.map (applyParquetDatetime df.columns)

/-- The first-100-rows sample read by the CSV path
(`pd.read_csv(file_path, nrows=100)`): header columns plus at most 100 rows. -/
def csvSample (f : CsvFile) : CsvFile :=
  ⟨f.columns, f.rows.take 100⟩

/-- The CSV path's name-based datetime detection: the columns whose
lowercased name contains the substring "date" or the substring "time". -/
def detectDatetimeColumns (cols : List String) : List String :=
  cols.filter fun c => pyContains c.toLower "date" || pyContains c.toLower "time"

/-- The CSV path's per-chunk conversion loop: each detected column present in
the chunk gets `pd.to_datetime` applied, cell by cell; all other cells are
untouched. -/
def applyDatetime (dtCols : List String) : List String → Row → Row
  | _, [] => []
  | [], vs => vs
  | c :: cs, v :: vs =>
    (if c ∈ dtCols then toDatetime v else v) :: applyDatetime dtCols cs vs

/-- The events of one iteration of the Parquet insertion loop, for loop index
`i` and chunk start `cs`: batch 0 creates the table from the chunk's zero-row
head then appends, later batches append; each iteration ends with a progress
line `chunk i+1 / total`. -/
def parquetChunkEvents (tname : String) (cols : List String) (total n : Nat)
    (rows : List Row) (i cs : Nat) : List Event :=
  let ce := min (cs + chunkSize) n
  let chunk := (rows.drop cs).take (ce - cs)
  (if i = 0 then
    [Event.sql (.replace tname cols []), Event.sql (.append tname cols chunk)]
  else
    [Event.sql (.append tname cols chunk)]) ++
  [Event.progressParquet (i + 1) total ce n]

/-- The event trace of `ingest_parquet`. -/
def ingestParquetEvents (p : Params) (df : DataFrame) : List Event :=
  let colNames := df.columns.map Prod.fst
  let rows := parquetTransformRows df
  let n := df.rows.length
  let total := n / chunkSize + 1
  [Event.connect (connUrl p), Event.printReading p.file_path,
   Event.printLoaded n, Event.printColumns colNames,
   Event.printInserting p.table_name] ++
  ((pyRange0 n chunkSize).enum.flatMap fun ic =>
    parquetChunkEvents p.table_name colNames total n rows ic.1 ic.2) ++
  [Event.printSuccess]

/-- The events of one iteration of the CSV insertion loop, for loop index `i`
and chunk `chunk`: the detected datetime columns are coerced, batch 0 creates
the table from the chunk's zero-row head then appends, later batches append;
each iteration ends with a progress line reporting the chunk's row count. -/
def csvChunkEvents (tname : String) (dtCols cols : List String) (i : Nat)
    (chunk : List Row) : List Event :=
  let converted := chunk.map (applyDatetime dtCols cols)
  (if i = 0 then
    [Event.sql (.replace tname cols []), Event.sql (.append tname cols converted)]
  else
    [Event.sql (.append tname cols converted)]) ++
  [Event.progressCsv (i + 1) converted.length]

/-- The event trace of `ingest_csv`. -/
def ingestCsvEvents (p : Params) (f : CsvFile) : List Event :=
  let dtCols := detectDatetimeColumns (csvSample f).columns
  [Event.connect (connUrl p), Event.printReading p.file_path,
   Event.printColumns (csvSample f).columns,
   Event.printDetectedDatetime dtCols,
   Event.printInserting p.table_name] ++
  ((chunkList f.rows).enum.flatMap fun ic =>
    csvChunkEvents p.table_name dtCols f.columns ic.1 ic.2) ++
  [Event.printSuccess]

/-- The ingestion path selected by `main` from the file path's suffix. -/
inductive Route where
  | parquet : Route
  | csv : Route
  | unsupported : Route
deriving DecidableEq

/-- The dispatch decision of `main`: `.parquet` ends → Parquet path, else
`.csv` or `.csv.gz` ends → CSV path, else unsupported. -/
def route (path : String) : Route :=
  if pyEndsWith path ".parquet" then Route.parquet
  else if pyEndsWith path ".csv" || pyEndsWith path ".csv.gz" then Route.csv
  else Route.unsupported

/-- The event trace of `main`, given the tabular content the file would parse
as on each path. -/
def mainEvents (p : Params) (pq : DataFrame) (cf : CsvFile) : List Event :=
  match route p.file_path with
  | Route.parquet => Event.printDetectedParquet :: ingestParquetEvents p pq
  | Route.csv => Event.printDetectedCsv :: ingestCsvEvents p cf
  | Route.unsupported => [Event.printUnsupported]

/-- Per-cell check used to state C6: every cell sitting in a detected
datetime column holds a date-time value. -/
def rowDatetimeOk (dtCols cols : List String) (row : Row) : Bool :=
  (cols.zip row).all fun cv =>
    if cv.1 ∈ dtCols then cv.2.isDatetime else true

/-- Per-cell check used to state C7: every cell sitting in a column that is
not detected is unchanged between the original and the converted row. -/
def rowFrameOk (dtCols cols : List String) (orig converted : Row) : Bool :=
  ((cols.zip orig).zip converted).all fun q =>
    if q.1.1 ∈ dtCols then true else q.1.2 == q.2

/-! ### Basic properties of `chunksOf` and `pyRange0` -/

lemma chunksOf_nil (k : Nat) : chunksOf k ([] : List α) = [] := by
  rw [chunksOf]
  simp

lemma chunksOf_zero (l : List α) : chunksOf 0 l = [] := by
  rw [chunksOf]
  simp

lemma chunksOf_cons (k : Nat) (hk : k ≠ 0) (l : List α) (hl : l ≠ []) :
    chunksOf k l = l.take k :: chunksOf k (l.drop k) := by
  rw [chunksOf]
  simp [hk, hl]

lemma chunksOf_flatten_fuel (k : Nat) (hk : k ≠ 0) :
    ∀ (fuel : Nat) (l : List α), l.length ≤ fuel → (chunksOf k l).flatten = l := by
  intro fuel
  induction fuel with
  | zero =>
    intro l hl
    have hnil : l = [] := List.length_eq_zero.mp (Nat.le_zero.mp hl)
    subst hnil
    simp [chunksOf_nil]
  | succ n ih =>
    intro l hl
    by_cases hnil : l = []
    · subst hnil
      simp [chunksOf_nil]
    · rw [chunksOf_cons k hk l hnil]
      have hpos : 0 < l.length := List.length_pos.mpr hnil
      have hk1 : 1 ≤ k := Nat.one_le_iff_ne_zero.mpr hk
      have hlen : (l.drop k).length ≤ n := by
        simp only [List.length_drop]
        omega
      simp only [List.flatten_cons]
      rw [ih (l.drop k) hlen, List.take_append_drop]

/-- Concatenating the chunks gives back the original list. -/
lemma chunksOf_flatten (k : Nat) (hk : k ≠ 0) (l : List α) :
    (chunksOf k l).flatten = l :=
  chunksOf_flatten_fuel k hk l.length l le_rfl

lemma chunksOf_map_fuel (k : Nat) (f : α → β) :
    ∀ (fuel : Nat) (l : List α), l.length ≤ fuel →
      chunksOf k (l.map f) = (chunksOf k l).map (List.map f) := by
  intro fuel
  induction fuel with
  | zero =>
    intro l hl
    have hnil : l = [] := List.length_eq_zero.mp (Nat.le_zero.mp hl)
    subst hnil
    simp [chunksOf_nil]
  | succ n ih =>
    intro l hl
    by_cases hk : k = 0
    · subst hk
      simp [chunksOf_zero]
    by_cases hnil : l = []
    · subst hnil
      simp [chunksOf_nil]
    · have hpos : 0 < l.length := List.length_pos.mpr hnil
      have hk1 : 1 ≤ k := Nat.one_le_iff_ne_zero.mpr hk
      have hlen : (l.drop k).length ≤ n := by
        simp only [List.length_drop]
        omega
      rw [chunksOf_cons k hk l hnil,
          chunksOf_cons k hk (l.map f) (by simp [hnil]),
          ← List.map_take, ← List.map_drop, ih (l.drop k) hlen]
      simp

/-- Chunking commutes with a per-row map. -/
lemma chunksOf_map (k : Nat) (f : α → β) (l : List α) :
    chunksOf k (l.map f) = (chunksOf k l).map (List.map f) :=
  chunksOf_map_fuel k f l.length l le_rfl

lemma chunksOf_ne_nil_fuel (k : Nat) :
    ∀ (fuel : Nat) (l : List α), l.length ≤ fuel →
      ∀ c ∈ chunksOf k l, c ≠ [] := by
  intro fuel
  induction fuel with
  | zero =>
    intro l hl
    have hnil : l = [] := List.length_eq_zero.mp (Nat.le_zero.mp hl)
    subst hnil
    simp [chunksOf_nil]
  | succ n ih =>
    intro l hl
    by_cases hk : k = 0
    · subst hk
      simp [chunksOf_zero]
    by_cases hnil : l = []
    · subst hnil
      simp [chunksOf_nil]
    · have hpos : 0 < l.length := List.length_pos.mpr hnil
      have hk1 : 1 ≤ k := Nat.one_le_iff_ne_zero.mpr hk
      have hlen : (l.drop k).length ≤ n := by
        simp only [List.length_drop]
        omega
      rw [chunksOf_cons k hk l hnil]
      intro c hc
      rcases List.mem_cons.mp hc with h | h
      · subst h
        simp only [ne_eq, List.take_eq_nil_iff]
        push_neg
        exact ⟨hk, hnil⟩
      · exact ih (l.drop k) hlen c h

/-- No chunk is empty. -/
lemma chunksOf_ne_nil (k : Nat) (l : List α) : ∀ c ∈ chunksOf k l, c ≠ [] :=
  chunksOf_ne_nil_fuel k l.length l le_rfl

lemma chunksOf_length_exact (k : Nat) (hk : k ≠ 0) :
    ∀ (m : Nat) (l : List α), l.length = m * k → (chunksOf k l).length = m := by
  intro m
  induction m with
  | zero =>
    intro l hl
    have hnil : l = [] := List.length_eq_zero.mp (by simpa using hl)
    subst hnil
    simp [chunksOf_nil]
  | succ m ih =>
    intro l hl
    have hk1 : 1 ≤ k := Nat.one_le_iff_ne_zero.mpr hk
    have hpos : 0 < l.length := by
      rw [hl]
      have : 0 < (m + 1) * k := Nat.mul_pos (Nat.succ_pos m) (Nat.pos_of_ne_zero hk)
      exact this
    have hnil : l ≠ [] := by
      intro h
      subst h
      simp at hpos
    rw [chunksOf_cons k hk l hnil]
    have hdrop : (l.drop k).length = m * k := by
      simp only [List.length_drop, hl]
      have hmul : (m + 1) * k = m * k + k := by ring
      omega
    simp only [List.length_cons, ih (l.drop k) hdrop]

lemma chunksOf_full_exact (k : Nat) (hk : k ≠ 0) :
    ∀ (m : Nat) (l : List α), l.length = m * k →
      ∀ c ∈ chunksOf k l, c.length = k := by
  intro m
  induction m with
  | zero =>
    intro l hl
    have hnil : l = [] := List.length_eq_zero.mp (by simpa using hl)
    subst hnil
    simp [chunksOf_nil]
  | succ m ih =>
    intro l hl
    have hk1 : 1 ≤ k := Nat.one_le_iff_ne_zero.mpr hk
    have hklen : k ≤ l.length := by
      rw [hl]
      calc k = 1 * k := (Nat.one_mul k).symm
        _ ≤ (m + 1) * k := Nat.mul_le_mul_right k (by omega)
    have hnil : l ≠ [] := by
      intro h
      subst h
      simp at hklen
      omega
    rw [chunksOf_cons k hk l hnil]
    intro c hc
    rcases List.mem_cons.mp hc with h | h
    · subst h
      simp only [List.length_take]
      omega
    · have hdrop : (l.drop k).length = m * k := by
        simp only [List.length_drop, hl]
        have hmul : (m + 1) * k = m * k + k := by ring
        omega
      exact ih (l.drop k) hdrop c h

lemma pyRange0_length (stop step : Nat) :
    (pyRange0 stop step).length = (stop + step - 1) / step := by
  simp [pyRange0]

lemma pyRange0_zero (step : Nat) (hs : step ≠ 0) : pyRange0 0 step = [] := by
  have h : (step - 1) / step = 0 :=
    Nat.div_eq_of_lt (by omega)
  simp [pyRange0, h]

/-- Normalisation of the Parquet loop's chunk extent: taking
`min (cs + k) l.length - cs` elements after dropping `cs` is the same as
taking `k` elements, because `take` truncates at the end of the list. -/
lemma take_min_extent (l : List α) (cs k : Nat) :
    (l.drop cs).take (min (cs + k) l.length - cs) = (l.drop cs).take k := by
  by_cases hcs : cs ≤ l.length
  · by_cases hck : cs + k ≤ l.length
    · rw [show min (cs + k) l.length - cs = k from by omega]
    · rw [show min (cs + k) l.length - cs = l.length - cs from by omega]
      have hlen : (l.drop cs).length = l.length - cs := by simp
      rw [← hlen, List.take_length, List.take_of_length_le (by omega)]
  · rw [List.drop_eq_nil_of_le (by omega)]
    simp

lemma pyRange0_chunks_fuel (k : Nat) (hk : k ≠ 0) :
    ∀ (fuel : Nat) (l : List α), l.length ≤ fuel →
      (pyRange0 l.length k).map (fun cs => (l.drop cs).take k) = chunksOf k l := by
  intro fuel
  induction fuel with
  | zero =>
    intro l hl
    have hnil : l = [] := List.length_eq_zero.mp (Nat.le_zero.mp hl)
    subst hnil
    simp [pyRange0_zero k hk, chunksOf_nil]
  | succ fuel ih =>
    intro l hl
    by_cases hnil : l = []
    · subst hnil
      simp [pyRange0_zero k hk, chunksOf_nil]
    · have hpos : 0 < l.length := List.length_pos.mpr hnil
      have hk1 : 1 ≤ k := Nat.one_le_iff_ne_zero.mpr hk
      have hlen : (l.drop k).length ≤ fuel := by
        simp only [List.length_drop]
        omega
      have hcnt : (l.length + k - 1) / k = (l.length - 1) / k + 1 := by
        rw [show l.length + k - 1 = (l.length - 1) + k from by omega]
        exact Nat.add_div_right _ (by omega)
      have hcnt2 : (l.length - k + k - 1) / k = (l.length - 1) / k := by
        by_cases hle : l.length ≤ k
        · have h1 : l.length - k = 0 := by omega
          rw [h1]
          simp only [Nat.zero_add]
          rw [Nat.div_eq_of_lt (by omega), Nat.div_eq_of_lt (by omega)]
        · rw [show l.length - k + k - 1 = l.length - 1 from by omega]
      rw [chunksOf_cons k hk l hnil, ← ih (l.drop k) hlen]
      simp only [pyRange0, List.length_drop]
      rw [hcnt, hcnt2, List.range_succ_eq_map]
      simp only [List.map_cons, List.map_map]
      refine congrArg₂ List.cons (by simp) (List.map_congr_left fun i _ => ?_)
      simp only [Function.comp_apply]
      rw [List.drop_drop, Nat.succ_mul]
      exact congrArg (fun m => List.take k (List.drop m l)) (Nat.add_comm (i * k) k)

/-- The pandas chunk iterator partitions the rows into consecutive chunks of
`chunkSize` rows, the last possibly shorter. -/
lemma chunkList_eq_chunksOf (rows : List Row) :
    chunkList rows = chunksOf chunkSize rows := by
  have hk : chunkSize ≠ 0 := by decide
  exact pyRange0_chunks_fuel chunkSize hk rows.length rows le_rfl

/-- The chunks sliced by the Parquet loop are the same partition. -/
lemma parquet_chunks_eq_chunksOf (rows : List Row) :
    (pyRange0 rows.length chunkSize).map
        (fun cs => (rows.drop cs).take (min (cs + chunkSize) rows.length - cs))
      = chunksOf chunkSize rows := by
  rw [← chunkList_eq_chunksOf]
  unfold chunkList
  exact List.map_congr_left fun cs _ => take_min_extent rows cs chunkSize

/-! ### Normal form of the insertion loops -/

/-- The SQL operations of one loop iteration: batch 0 replaces then appends,
later batches append only. -/
def opsForIChunk (tname : String) (cols : List String) (i : Nat)
    (chunk : List Row) : List SqlOp :=
  if i = 0 then [SqlOp.replace tname cols [], SqlOp.append tname cols chunk]
  else [SqlOp.append tname cols chunk]

/-- The SQL operations of the whole insertion loop over a chunk list. -/
def loopSql (tname : String) (cols : List String)
    (chunks : List (List Row)) : List SqlOp :=
  chunks.enum.flatMap fun ic => opsForIChunk tname cols ic.1 ic.2

lemma flatMap_eq_map (g : α → List β) (h : α → β) (l : List α)
    (hg : ∀ a ∈ l, g a = [h a]) : l.flatMap g = l.map h := by
  induction l with
  | nil => rfl
  | cons a t ih =>
    rw [List.flatMap_cons, List.map_cons, hg a (List.mem_cons_self a t),
        ih fun b hb => hg b (List.mem_cons_of_mem a hb)]
    rfl

lemma mem_enumFrom_fst_ne_zero {l : List α} :
    ∀ (j : Nat) (p : Nat × α), p ∈ l.enumFrom (j + 1) → p.1 ≠ 0 := by
  induction l with
  | nil =>
    intro j p hp
    simp [List.enumFrom] at hp
  | cons a t ih =>
    intro j p hp
    rw [List.enumFrom_cons] at hp
    rcases List.mem_cons.mp hp with h | h
    · rw [h]
      simp
    · exact ih (j + 1) p h

lemma enumFrom_map (f : α → β) (l : List α) :
    ∀ j, (l.map f).enumFrom j = (l.enumFrom j).map fun p => (p.1, f p.2) := by
  induction l with
  | nil => intro j; rfl
  | cons a t ih =>
    intro j
    simp only [List.map_cons, List.enumFrom_cons, ih (j + 1)]

lemma enum_map (f : α → β) (l : List α) :
    (l.map f).enum = l.enum.map fun p => (p.1, f p.2) :=
  enumFrom_map f l 0

/-- Every iteration of the loop appends exactly its chunk, so the appended
batches are exactly the chunk list. -/
lemma appendedChunks_loopSql (tname : String) (cols : List String)
    (chunks : List (List Row)) :
    appendedChunks (loopSql tname cols chunks) = chunks := by
  unfold loopSql appendedChunks
  rw [List.filterMap_flatMap]
  rw [flatMap_eq_map _ (fun ic => ic.2) _ ?hg]
  · simpa using List.enumFrom_map_snd 0 chunks
  case hg =>
    intro ic hic
    by_cases h : ic.1 = 0 <;>
      simp [opsForIChunk, h, List.filterMap_cons, SqlOp.appendRows]

lemma loopSql_nil (tname : String) (cols : List String) :
    loopSql tname cols [] = [] := rfl

lemma loopSql_cons (tname : String) (cols : List String) (c : List Row)
    (rest : List (List Row)) :
    loopSql tname cols (c :: rest)
      = SqlOp.replace tname cols [] :: SqlOp.append tname cols c ::
          ((rest.enumFrom 1).flatMap fun ic => opsForIChunk tname cols ic.1 ic.2) := by
  unfold loopSql
  rw [List.enum_cons, List.flatMap_cons]
  simp [opsForIChunk]

lemma loopSql_tail_appends (tname : String) (cols : List String)
    (rest : List (List Row)) :
    ∀ op ∈ (rest.enumFrom 1).flatMap fun ic => opsForIChunk tname cols ic.1 ic.2,
      op.isAppend = true := by
  intro op hop
  rcases List.mem_flatMap.mp hop with ⟨ic, hic, hmem⟩
  have h1 : ic.1 ≠ 0 := mem_enumFrom_fst_ne_zero 0 ic hic
  simp only [opsForIChunk, if_neg h1, List.mem_singleton] at hmem
  rw [hmem]
  rfl

/-- Running a list of appends onto an existing table concatenates all
appended rows, keeping the columns. -/
lemma runOps_all_appends (ops : List SqlOp) :
    ∀ (tb : Table), (∀ op ∈ ops, op.isAppend = true) →
      runOps (some tb) ops = some ⟨tb.columns, tb.rows ++ appendedRows ops⟩ := by
  induction ops with
  | nil =>
    intro tb _
    simp [runOps, appendedRows, appendedChunks]
  | cons op rest ih =>
    intro tb hall
    have hop : op.isAppend = true := hall op (List.mem_cons_self op rest)
    cases op with
    | replace t c r => simp [SqlOp.isAppend] at hop
    | append t c r =>
      have hrest : ∀ o ∈ rest, o.isAppend = true :=
        fun o ho => hall o (List.mem_cons_of_mem _ ho)
      have hstep : runOps (some tb) (SqlOp.append t c r :: rest)
          = runOps (some ⟨tb.columns, tb.rows ++ r⟩) rest := rfl
      rw [hstep, ih ⟨tb.columns, tb.rows ++ r⟩ hrest]
      have happ : appendedRows (SqlOp.append t c r :: rest)
          = r ++ appendedRows rest := by
        simp [appendedRows, appendedChunks, List.filterMap_cons, SqlOp.appendRows]
      rw [happ, List.append_assoc]

/-- Running the loop of a nonempty chunk list from any initial table state
ends in a table whose columns are the frame's columns and whose rows are
exactly the appended rows. -/
lemma runOps_loopSql_cons (tname : String) (cols : List String) (c : List Row)
    (rest : List (List Row)) (db : Option Table) :
    runOps db (loopSql tname cols (c :: rest))
      = some ⟨cols, appendedRows (loopSql tname cols (c :: rest))⟩ := by
  rw [loopSql_cons]
  have hall : ∀ op ∈ SqlOp.append tname cols c ::
      ((rest.enumFrom 1).flatMap fun ic => opsForIChunk tname cols ic.1 ic.2),
      op.isAppend = true := by
    intro op hop
    rcases List.mem_cons.mp hop with h | h
    · rw [h]
      rfl
    · exact loopSql_tail_appends tname cols rest op h
  have hstep : runOps db (SqlOp.replace tname cols [] :: SqlOp.append tname cols c ::
      ((rest.enumFrom 1).flatMap fun ic => opsForIChunk tname cols ic.1 ic.2))
      = runOps (some ⟨cols, []⟩) (SqlOp.append tname cols c ::
      ((rest.enumFrom 1).flatMap fun ic => opsForIChunk tname cols ic.1 ic.2)) := rfl
  rw [hstep, runOps_all_appends _ ⟨cols, []⟩ hall]
  have happ : appendedRows (SqlOp.replace tname cols [] :: SqlOp.append tname cols c ::
      ((rest.enumFrom 1).flatMap fun ic => opsForIChunk tname cols ic.1 ic.2))
      = appendedRows (SqlOp.append tname cols c ::
      ((rest.enumFrom 1).flatMap fun ic => opsForIChunk tname cols ic.1 ic.2)) := by
    simp [appendedRows, appendedChunks, List.filterMap_cons, SqlOp.appendRows]
  rw [happ]
  simp

/-! ### The SQL operations and progress lines of the two ingestion traces -/

lemma parquetTransformRows_length (df : DataFrame) :
    (parquetTransformRows df).length = df.rows.length := by
  simp [parquetTransformRows]

lemma filterMap_sqlOp_parquetChunkEvents (tname : String) (cols : List String)
    (total n : Nat) (rows : List Row) (i cs : Nat) :
    (parquetChunkEvents tname cols total n rows i cs).filterMap Event.sqlOp
      = opsForIChunk tname cols i
          ((rows.drop cs).take (min (cs + chunkSize) n - cs)) := by
  unfold parquetChunkEvents opsForIChunk
  by_cases h : i = 0 <;>
    simp [h, Event.sqlOp, List.filterMap_cons, List.filterMap_append]

lemma filterMap_sqlOp_csvChunkEvents (tname : String) (dtCols cols : List String)
    (i : Nat) (chunk : List Row) :
    (csvChunkEvents tname dtCols cols i chunk).filterMap Event.sqlOp
      = opsForIChunk tname cols i (chunk.map (applyDatetime dtCols cols)) := by
  unfold csvChunkEvents opsForIChunk
  by_cases h : i = 0 <;>
    simp [h, Event.sqlOp, List.filterMap_cons, List.filterMap_append]

/-- The SQL operations of the Parquet trace are the insertion loop run over
the partition of the datetime-normalised rows into chunks of `chunkSize`. -/
lemma sqlOps_parquet (p : Params) (df : DataFrame) :
    sqlOps (ingestParquetEvents p df)
      = loopSql p.table_name (df.columns.map Prod.fst)
          (chunksOf chunkSize (parquetTransformRows df)) := by
  have hlen : df.rows.length = (parquetTransformRows df).length :=
    (parquetTransformRows_length df).symm
  rw [← parquet_chunks_eq_chunksOf (parquetTransformRows df)]
  unfold loopSql
  rw [enum_map, List.flatMap_map]
  simp only [sqlOps, ingestParquetEvents, List.filterMap_append,
    List.filterMap_flatMap, filterMap_sqlOp_parquetChunkEvents,
    Event.sqlOp, List.filterMap_cons, List.filterMap_nil, List.nil_append,
    List.append_nil, hlen]

/-- The SQL operations of the CSV trace are the insertion loop run over the
partition of the per-chunk-converted rows into chunks of `chunkSize`. -/
lemma sqlOps_csv (p : Params) (f : CsvFile) :
    sqlOps (ingestCsvEvents p f)
      = loopSql p.table_name f.columns
          (chunksOf chunkSize (f.rows.map
            (applyDatetime (detectDatetimeColumns (csvSample f).columns)
              f.columns))) := by
  rw [chunksOf_map]
  unfold loopSql
  rw [enum_map, List.flatMap_map, ← chunkList_eq_chunksOf]
  simp only [sqlOps, ingestCsvEvents, List.filterMap_append,
    List.filterMap_flatMap, filterMap_sqlOp_csvChunkEvents,
    Event.sqlOp, List.filterMap_cons, List.filterMap_nil, List.nil_append,
    List.append_nil]

lemma filterMap_progress_parquetChunkEvents (tname : String) (cols : List String)
    (total n : Nat) (rows : List Row) (i cs : Nat) :
    (parquetChunkEvents tname cols total n rows i cs).filterMap
        Event.parquetProgressInfo
      = [(i + 1, total)] := by
  unfold parquetChunkEvents
  by_cases h : i = 0 <;>
    simp [h, Event.parquetProgressInfo, List.filterMap_cons, List.filterMap_append]

lemma enum_map_fst_fun (g : Nat → β) (l : List α) :
    l.enum.map (fun ic => g ic.1) = (List.range l.length).map g := by
  have h : l.enum.map (fun ic => g ic.1) = (l.enum.map Prod.fst).map g := by
    rw [List.map_map]
    rfl
  rw [h]
  have h2 : l.enum.map Prod.fst = List.range l.length := by
    rw [List.range_eq_range']
    exact List.enumFrom_map_fst 0 l
  rw [h2]

/-- The Parquet progress lines: one line per loop iteration, numbered from 1,
all showing the same precomputed total `n / chunkSize + 1`. -/
lemma parquetProgress_events (p : Params) (df : DataFrame) :
    parquetProgress (ingestParquetEvents p df)
      = (List.range (pyRange0 df.rows.length chunkSize).length).map
          (fun i => (i + 1, df.rows.length / chunkSize + 1)) := by
  rw [← enum_map_fst_fun (fun i => (i + 1, df.rows.length / chunkSize + 1))
    (pyRange0 df.rows.length chunkSize)]
  rw [← flatMap_eq_map
    (fun ic => [(ic.1 + 1, df.rows.length / chunkSize + 1)])
    (fun ic => (ic.1 + 1, df.rows.length / chunkSize + 1))
    (pyRange0 df.rows.length chunkSize).enum (fun ic _ => rfl)]
  simp only [parquetProgress, ingestParquetEvents, List.filterMap_append,
    List.filterMap_flatMap, filterMap_progress_parquetChunkEvents,
    Event.parquetProgressInfo, List.filterMap_cons, List.filterMap_nil,
    List.nil_append, List.append_nil]

/-! ### Cell-level properties of the datetime conversions -/

lemma toDatetime_isDatetime (v : Value) : (toDatetime v).isDatetime = true := by
  cases v <;> rfl

lemma rowDatetimeOk_applyDatetime (dtCols : List String) :
    ∀ (cols : List String) (row : Row),
      rowDatetimeOk dtCols cols (applyDatetime dtCols cols row) = true := by
  intro cols
  induction cols with
  | nil =>
    intro row
    simp [rowDatetimeOk]
  | cons c cs ih =>
    intro row
    cases row with
    | nil => simp [applyDatetime, rowDatetimeOk]
    | cons v vs =>
      have hrec := ih vs
      simp only [rowDatetimeOk] at hrec ⊢
      simp only [applyDatetime, List.zip_cons_cons, List.all_cons, Bool.and_eq_true]
      refine ⟨?_, hrec⟩
      by_cases hc : c ∈ dtCols
      · simp [hc, toDatetime_isDatetime]
      · simp [hc]

lemma applyDatetime_length (dtCols : List String) :
    ∀ (cols : List String) (row : Row),
      (applyDatetime dtCols cols row).length = row.length := by
  intro cols
  induction cols with
  | nil =>
    intro row
    cases row <;> rfl
  | cons c cs ih =>
    intro row
    cases row with
    | nil => rfl
    | cons v vs => simp [applyDatetime, ih vs]

lemma rowFrameOk_applyDatetime (dtCols : List String) :
    ∀ (cols : List String) (row : Row),
      rowFrameOk dtCols cols row (applyDatetime dtCols cols row) = true := by
  intro cols
  induction cols with
  | nil =>
    intro row
    simp [rowFrameOk]
  | cons c cs ih =>
    intro row
    cases row with
    | nil => simp [applyDatetime, rowFrameOk]
    | cons v vs =>
      have hrec := ih vs
      simp only [rowFrameOk] at hrec ⊢
      simp only [applyDatetime, List.zip_cons_cons, List.all_cons, Bool.and_eq_true]
      refine ⟨?_, hrec⟩
      by_cases hc : c ∈ dtCols
      · simp [hc]
      · simp [hc]

/-! ### Dispatch properties -/

lemma pyEndsWith_excl (s a b : String)
    (hab : ¬ a.toList <:+ b.toList) (hba : ¬ b.toList <:+ a.toList) :
    ¬ (pyEndsWith s a = true ∧ pyEndsWith s b = true) := by
  rintro ⟨ha, hb⟩
  rw [pyEndsWith, List.isSuffixOf_iff_suffix] at ha hb
  rcases List.suffix_or_suffix_of_suffix ha hb with h | h
  · exact hab h
  · exact hba h

lemma route_parquet_iff (path : String) :
    route path = Route.parquet ↔ pyEndsWith path ".parquet" = true := by
  unfold route
  cases h1 : pyEndsWith path ".parquet"
  · cases h2 : pyEndsWith path ".csv"
    · cases h3 : pyEndsWith path ".csv.gz" <;> simp [h1, h2, h3]
    · simp [h1, h2]
  · simp [h1]

lemma route_csv_iff (path : String) :
    route path = Route.csv ↔
      (pyEndsWith path ".csv" = true ∨ pyEndsWith path ".csv.gz" = true) := by
  unfold route
  cases h1 : pyEndsWith path ".parquet"
  · cases h2 : pyEndsWith path ".csv"
    · cases h3 : pyEndsWith path ".csv.gz" <;> simp [h1, h2, h3]
    · simp [h1, h2]
  · have hcsv : pyEndsWith path ".csv" = false := by
      cases hx : pyEndsWith path ".csv"
      · rfl
      · exact absurd ⟨h1, hx⟩
          (pyEndsWith_excl path ".parquet" ".csv" (by decide) (by decide))
    have hgz : pyEndsWith path ".csv.gz" = false := by
      cases hx : pyEndsWith path ".csv.gz"
      · rfl
      · exact absurd ⟨h1, hx⟩
          (pyEndsWith_excl path ".parquet" ".csv.gz" (by decide) (by decide))
    simp [h1, hcsv, hgz]

lemma route_unsupported_iff (path : String) :
    route path = Route.unsupported ↔
      (pyEndsWith path ".parquet" = false ∧ pyEndsWith path ".csv" = false ∧
        pyEndsWith path ".csv.gz" = false) := by
  unfold route
  cases h1 : pyEndsWith path ".parquet"
  · cases h2 : pyEndsWith path ".csv"
    · cases h3 : pyEndsWith path ".csv.gz" <;> simp [h1, h2, h3]
    · simp [h1, h2]
  · simp [h1]

/-! ### Consolidated facts about a whole ingestion loop -/

lemma loopSql_facts (tname : String) (cols : List String) (rows : List Row) :
    appendedChunks (loopSql tname cols (chunksOf chunkSize rows))
        = chunksOf chunkSize rows
    ∧ (appendedRows (loopSql tname cols (chunksOf chunkSize rows))).length
        = rows.length
    ∧ tableRowCount (runOps none (loopSql tname cols (chunksOf chunkSize rows)))
        = rows.length := by
  have hk : chunkSize ≠ 0 := by decide
  have h1 := appendedChunks_loopSql tname cols (chunksOf chunkSize rows)
  have h2 : appendedRows (loopSql tname cols (chunksOf chunkSize rows)) = rows := by
    rw [appendedRows, h1, chunksOf_flatten chunkSize hk]
  refine ⟨h1, by rw [h2], ?_⟩
  cases hc : chunksOf chunkSize rows with
  | nil =>
    have hrows : rows = [] := by
      have hfl := chunksOf_flatten chunkSize hk rows
      rw [hc] at hfl
      simpa using hfl.symm
    rw [loopSql_nil, hrows]
    rfl
  | cons c rest =>
    rw [runOps_loopSql_cons]
    simp only [tableRowCount]
    rw [← hc, h2]

lemma loopSql_head_tail (tname : String) (cols : List String) (rows : List Row)
    (hrows : rows ≠ []) :
    loopSql tname cols (chunksOf chunkSize rows)
        = SqlOp.replace tname cols []
            :: (loopSql tname cols (chunksOf chunkSize rows)).tail
    ∧ ∀ op ∈ (loopSql tname cols (chunksOf chunkSize rows)).tail,
        op.isAppend = true := by
  have hk : chunkSize ≠ 0 := by decide
  cases hc : chunksOf chunkSize rows with
  | nil =>
    exfalso
    have hfl := chunksOf_flatten chunkSize hk rows
    rw [hc] at hfl
    exact hrows (by simpa using hfl.symm)
  | cons c rest =>
    rw [loopSql_cons]
    refine ⟨rfl, ?_⟩
    intro op hop
    rcases List.mem_cons.mp hop with h | h
    · rw [h]
      rfl
    · exact loopSql_tail_appends tname cols rest op h

/-- Running the same loop a second time ends in the same table state,
because the loop either does nothing (no chunks) or starts with a replace
that discards the previous state. -/
lemma runOps_twice_loopSql (tname : String) (cols : List String)
    (chunks : List (List Row)) (db : Option Table) :
    runOps (runOps db (loopSql tname cols chunks)) (loopSql tname cols chunks)
      = runOps db (loopSql tname cols chunks) := by
  cases chunks with
  | nil => rfl
  | cons c rest => rw [runOps_loopSql_cons, runOps_loopSql_cons]

lemma ingestParquetEvents_getLast (p : Params) (df : DataFrame) :
    (ingestParquetEvents p df).getLast? = some Event.printSuccess := by
  simp only [ingestParquetEvents]
  rw [List.getLast?_concat]

lemma ingestCsvEvents_getLast (p : Params) (f : CsvFile) :
    (ingestCsvEvents p f).getLast? = some Event.printSuccess := by
  simp only [ingestCsvEvents]
  rw [List.getLast?_concat]

/-! ### Sample inputs used by the witnesses -/

/-- Concrete connection parameters (the script's defaults). -/
def sampleParams : Params :=
  ⟨"postgres", "postgres", "localhost", "5433", "ny_taxi", "trips", "data.parquet"⟩

/-- Parameters whose file path has an unsupported suffix. -/
def jsonParams : Params :=
  ⟨"postgres", "postgres", "localhost", "5433", "ny_taxi", "trips", "data.json"⟩

/-- A small two-row Parquet frame with one datetime64 column. -/
def witnessDf : DataFrame :=
  ⟨[("id", Dtype.other), ("pickup_datetime", Dtype.datetime64)],
   [[Value.raw "1", Value.raw "2021-01-01"], [Value.raw "2", Value.raw "2021-01-02"]]⟩

/-- A small one-row CSV file with one datetime-named column. -/
def witnessCsv : CsvFile :=
  ⟨["id", "pickup_datetime"], [[Value.raw "1", Value.raw "2021-01-01"]]⟩

/-- A Parquet frame whose row count is exactly one full chunk. -/
def bigDf : DataFrame :=
  ⟨[("id", Dtype.other)], List.replicate 100000 [Value.raw "x"]⟩

/-- A Parquet frame with zero data rows. -/
def emptyDf : DataFrame :=
  ⟨[("id", Dtype.other)], []⟩

/-- A CSV file with a header and zero data rows. -/
def emptyCsv : CsvFile :=
  ⟨["id"], []⟩

lemma bigDf_rows_length : bigDf.rows.length = 100000 := by
  rw [show bigDf.rows = List.replicate 100000 [Value.raw "x"] from rfl]
  exact List.length_replicate 100000 _

/-! ### The claims -/

/-- C1: for every supported input file, on both ingestion paths the batch
loop partitions the (datetime-converted) source rows into consecutive chunks
in file order, each chunk is appended exactly once, the total number of
appended rows equals the source row count, and the destination table of a
run against a fresh database holds exactly that many rows. -/
theorem c1_row_count_conservation (p : Params) (df : DataFrame) (f : CsvFile) :
    (appendedChunks (sqlOps (ingestParquetEvents p df))
        = chunksOf chunkSize (parquetTransformRows df)
      ∧ (appendedRows (sqlOps (ingestParquetEvents p df))).length = df.rows.length
      ∧ tableRowCount (runOps none (sqlOps (ingestParquetEvents p df)))
          = df.rows.length)
    ∧ (appendedChunks (sqlOps (ingestCsvEvents p f))
        = chunksOf chunkSize (f.rows.map
            (applyDatetime (detectDatetimeColumns (csvSample f).columns) f.columns))
      ∧ (appendedRows (sqlOps (ingestCsvEvents p f))).length = f.rows.length
      ∧ tableRowCount (runOps none (sqlOps (ingestCsvEvents p f)))
          = f.rows.length) := by
  constructor
  · rw [sqlOps_parquet]
    have h := loopSql_facts p.table_name (df.columns.map Prod.fst)
      (parquetTransformRows df)
    rw [parquetTransformRows_length] at h
    exact h
  · rw [sqlOps_csv]
    have h := loopSql_facts p.table_name f.columns
      (f.rows.map
        (applyDatetime (detectDatetimeColumns (csvSample f).columns) f.columns))
    rw [List.length_map] at h
    exact h

/-- C2: whenever a run produces at least one batch, on both paths the first
SQL operation is the single destructive create-or-replace, issued with the
first batch's column schema and zero rows, and every later operation is an
append — no replace ever follows an append. -/
theorem c2_replace_once_then_appends (p : Params) (df : DataFrame) (f : CsvFile)
    (hdf : df.rows ≠ []) (hf : f.rows ≠ []) :
    (sqlOps (ingestParquetEvents p df)
        = SqlOp.replace p.table_name (df.columns.map Prod.fst) []
            :: (sqlOps (ingestParquetEvents p df)).tail
      ∧ ∀ op ∈ (sqlOps (ingestParquetEvents p df)).tail, op.isAppend = true)
    ∧ (sqlOps (ingestCsvEvents p f)
        = SqlOp.replace p.table_name f.columns []
            :: (sqlOps (ingestCsvEvents p f)).tail
      ∧ ∀ op ∈ (sqlOps (ingestCsvEvents p f)).tail, op.isAppend = true) := by
  constructor
  · rw [sqlOps_parquet]
    exact loopSql_head_tail p.table_name (df.columns.map Prod.fst)
      (parquetTransformRows df) (by simpa [parquetTransformRows] using hdf)
  · rw [sqlOps_csv]
    exact loopSql_head_tail p.table_name f.columns _ (by simpa using hf)

/-- C2 witness: the structure theorem applied to a concrete two-row Parquet
frame and a concrete one-row CSV file. -/
theorem c2_witness :
    witnessDf.rows ≠ [] ∧ witnessCsv.rows ≠ []
    ∧ ((sqlOps (ingestParquetEvents sampleParams witnessDf)
          = SqlOp.replace sampleParams.table_name (witnessDf.columns.map Prod.fst) []
              :: (sqlOps (ingestParquetEvents sampleParams witnessDf)).tail
        ∧ ∀ op ∈ (sqlOps (ingestParquetEvents sampleParams witnessDf)).tail,
            op.isAppend = true)
      ∧ (sqlOps (ingestCsvEvents sampleParams witnessCsv)
          = SqlOp.replace sampleParams.table_name witnessCsv.columns []
              :: (sqlOps (ingestCsvEvents sampleParams witnessCsv)).tail
        ∧ ∀ op ∈ (sqlOps (ingestCsvEvents sampleParams witnessCsv)).tail,
            op.isAppend = true)) :=
  ⟨by simp [witnessDf], by simp [witnessCsv],
    c2_replace_once_then_appends sampleParams witnessDf witnessCsv
      (by simp [witnessDf]) (by simp [witnessCsv])⟩

/-- C3 counterexample: at a 100000-row Parquet input (exactly one full
chunk) the loop runs exactly one iteration — there is no extra empty-range
iteration, so the iteration count is not "number of full chunks plus one"
as the claim asserts. -/
theorem c3_counterexample :
    (parquetProgress (ingestParquetEvents sampleParams bigDf)).length = 1
    ∧ (parquetProgress (ingestParquetEvents sampleParams bigDf)).length
        ≠ bigDf.rows.length / chunkSize + 1 := by
  rw [parquetProgress_events, List.length_map, List.length_range,
    pyRange0_length, bigDf_rows_length]
  simp only [chunkSize]
  norm_num

/-- C3 (amended): for every Parquet input whose row count is a positive
exact multiple of 100000 the batch loop produces exactly rowcount/100000
iterations — no extra empty-range iteration occurs — every written chunk is
a full chunk of 100000 rows, and the total number of rows written equals the
source row count (no error, no double-counting). -/
theorem c3_exact_multiple_no_empty_batch (p : Params) (df : DataFrame) (m : Nat)
    (hm : 0 < m) (hn : df.rows.length = m * chunkSize) :
    (parquetProgress (ingestParquetEvents p df)).length = m
    ∧ (∀ c ∈ appendedChunks (sqlOps (ingestParquetEvents p df)),
        c.length = chunkSize)
    ∧ (appendedRows (sqlOps (ingestParquetEvents p df))).length
        = df.rows.length := by
  have hk : chunkSize ≠ 0 := by decide
  have htrans : (parquetTransformRows df).length = m * chunkSize := by
    rw [parquetTransformRows_length, hn]
  refine ⟨?_, ?_, ?_⟩
  · rw [parquetProgress_events, List.length_map, List.length_range,
      pyRange0_length, hn]
    simp only [chunkSize]
    omega
  · intro c hc
    rw [sqlOps_parquet, appendedChunks_loopSql] at hc
    exact chunksOf_full_exact chunkSize hk m (parquetTransformRows df) htrans c hc
  · rw [sqlOps_parquet]
    exact ((loopSql_facts p.table_name (df.columns.map Prod.fst)
      (parquetTransformRows df)).2.1).trans (parquetTransformRows_length df)

/-- C3 witness: the amended theorem applied to the concrete one-full-chunk
frame (100000 rows, m = 1). -/
theorem c3_witness :
    0 < 1 ∧ bigDf.rows.length = 1 * chunkSize
    ∧ ((parquetProgress (ingestParquetEvents sampleParams bigDf)).length = 1
      ∧ (∀ c ∈ appendedChunks (sqlOps (ingestParquetEvents sampleParams bigDf)),
          c.length = chunkSize)
      ∧ (appendedRows (sqlOps (ingestParquetEvents sampleParams bigDf))).length
          = bigDf.rows.length) :=
  ⟨Nat.one_pos, by rw [bigDf_rows_length]; rfl,
    c3_exact_multiple_no_empty_batch sampleParams bigDf 1 Nat.one_pos
      (by rw [bigDf_rows_length]; rfl)⟩

/-- C4: the dispatcher selects the Parquet path exactly for paths ending in
".parquet", the CSV path exactly for paths ending in ".csv" or ".csv.gz",
and reports an unsupported format exactly when none of the three suffixes
matches. -/
theorem c4_dispatch_by_suffix (path : String) :
    (route path = Route.parquet ↔ pyEndsWith path ".parquet" = true)
    ∧ (route path = Route.csv ↔
        (pyEndsWith path ".csv" = true ∨ pyEndsWith path ".csv.gz" = true))
    ∧ (route path = Route.unsupported ↔
        (pyEndsWith path ".parquet" = false ∧ pyEndsWith path ".csv" = false ∧
          pyEndsWith path ".csv.gz" = false)) :=
  ⟨route_parquet_iff path, route_csv_iff path, route_unsupported_iff path⟩

/-- C5: for a file path with an unsupported suffix, the run prints only the
unsupported-format message and has no side effects: no connection is
created, no SQL operation is issued, and any initial table state is left
unchanged. -/
theorem c5_unsupported_no_side_effects (p : Params) (pq : DataFrame)
    (cf : CsvFile)
    (h1 : pyEndsWith p.file_path ".parquet" = false)
    (h2 : pyEndsWith p.file_path ".csv" = false)
    (h3 : pyEndsWith p.file_path ".csv.gz" = false) :
    mainEvents p pq cf = [Event.printUnsupported]
    ∧ (∀ e ∈ mainEvents p pq cf, e.isConnect = false ∧ e.isSql = false)
    ∧ sqlOps (mainEvents p pq cf) = []
    ∧ (∀ init : Option Table, runOps init (sqlOps (mainEvents p pq cf)) = init) := by
  have hroute : route p.file_path = Route.unsupported :=
    (route_unsupported_iff p.file_path).mpr ⟨h1, h2, h3⟩
  have hmain : mainEvents p pq cf = [Event.printUnsupported] := by
    unfold mainEvents
    rw [hroute]
  refine ⟨hmain, ?_, ?_, ?_⟩
  · rw [hmain]
    intro e he
    rw [List.mem_singleton] at he
    rw [he]
    exact ⟨rfl, rfl⟩
  · rw [hmain]
    rfl
  · rw [hmain]
    intro init
    rfl

/-- C5 witness: the no-side-effects theorem applied to the concrete path
"data.json". -/
theorem c5_witness :
    pyEndsWith jsonParams.file_path ".parquet" = false
    ∧ pyEndsWith jsonParams.file_path ".csv" = false
    ∧ pyEndsWith jsonParams.file_path ".csv.gz" = false
    ∧ (mainEvents jsonParams emptyDf emptyCsv = [Event.printUnsupported]
      ∧ (∀ e ∈ mainEvents jsonParams emptyDf emptyCsv,
          e.isConnect = false ∧ e.isSql = false)
      ∧ sqlOps (mainEvents jsonParams emptyDf emptyCsv) = []
      ∧ (∀ init : Option Table,
          runOps init (sqlOps (mainEvents jsonParams emptyDf emptyCsv)) = init)) :=
  ⟨by decide, by decide, by decide,
    c5_unsupported_no_side_effects jsonParams emptyDf emptyCsv
      (by decide) (by decide) (by decide)⟩

/-- C6: in the CSV path the detected datetime set is exactly the sample's
columns whose lowercased name contains "date" or "time", and in every
appended chunk every cell of a detected column holds a date-time value. -/
theorem c6_csv_datetime_detection (p : Params) (f : CsvFile) :
    (∀ c : String, c ∈ detectDatetimeColumns (csvSample f).columns ↔
        (c ∈ (csvSample f).columns
          ∧ (pyContains c.toLower "date" = true
            ∨ pyContains c.toLower "time" = true)))
    ∧ (∀ chunk ∈ appendedChunks (sqlOps (ingestCsvEvents p f)),
        ∀ row ∈ chunk,
          rowDatetimeOk (detectDatetimeColumns (csvSample f).columns) f.columns row
            = true) := by
  constructor
  · intro c
    unfold detectDatetimeColumns
    rw [List.mem_filter]
    simp
  · intro chunk hchunk row hrow
    rw [sqlOps_csv, appendedChunks_loopSql, chunksOf_map] at hchunk
    rcases List.mem_map.mp hchunk with ⟨c0, _, heq⟩
    rw [← heq] at hrow
    rcases List.mem_map.mp hrow with ⟨r0, _, heq2⟩
    rw [← heq2]
    exact rowDatetimeOk_applyDatetime _ _ r0

/-- C7: the CSV per-chunk transformation maps each source chunk row-by-row,
preserves every row's length, and leaves every cell of a non-detected
column unchanged — no other coercion occurs. -/
theorem c7_no_other_coercion (p : Params) (f : CsvFile) :
    appendedChunks (sqlOps (ingestCsvEvents p f))
      = (chunksOf chunkSize f.rows).map
          (List.map (applyDatetime
            (detectDatetimeColumns (csvSample f).columns) f.columns))
    ∧ (∀ row : Row,
        (applyDatetime (detectDatetimeColumns (csvSample f).columns) f.columns
            row).length = row.length
        ∧ rowFrameOk (detectDatetimeColumns (csvSample f).columns) f.columns row
            (applyDatetime (detectDatetimeColumns (csvSample f).columns)
              f.columns row) = true) := by
  constructor
  · rw [sqlOps_csv, appendedChunks_loopSql, chunksOf_map]
  · intro row
    exact ⟨applyDatetime_length _ _ row, rowFrameOk_applyDatetime _ _ row⟩

/-- C8: running the loader twice in succession over the same file and table
name ends in exactly the same destination-table state as running it once,
from any initial table state, on both paths. -/
theorem c8_second_run_same_state (p : Params) (df : DataFrame) (f : CsvFile)
    (init : Option Table) :
    runOps (runOps init (sqlOps (ingestParquetEvents p df)))
        (sqlOps (ingestParquetEvents p df))
      = runOps init (sqlOps (ingestParquetEvents p df))
    ∧ runOps (runOps init (sqlOps (ingestCsvEvents p f)))
        (sqlOps (ingestCsvEvents p f))
      = runOps init (sqlOps (ingestCsvEvents p f)) := by
  rw [sqlOps_parquet, sqlOps_csv]
  exact ⟨runOps_twice_loopSql _ _ _ init, runOps_twice_loopSql _ _ _ init⟩

/-- C9: for a Parquet input whose row count is a positive exact multiple
m * 100000, the loop iterates m times while the precomputed progress total
is m + 1, so the reported total exceeds the iterations by exactly one and
the final progress line reads "chunk m of m + 1". -/
theorem c9_progress_total_off_by_one (p : Params) (df : DataFrame) (m : Nat)
    (hm : 0 < m) (hn : df.rows.length = m * chunkSize) :
    (parquetProgress (ingestParquetEvents p df)).length = m
    ∧ df.rows.length / chunkSize + 1
        = (parquetProgress (ingestParquetEvents p df)).length + 1
    ∧ (parquetProgress (ingestParquetEvents p df)).getLast? = some (m, m + 1) := by
  have hrange : (pyRange0 df.rows.length chunkSize).length = m := by
    rw [pyRange0_length, hn]
    simp only [chunkSize]
    omega
  have hlen : (parquetProgress (ingestParquetEvents p df)).length = m := by
    rw [parquetProgress_events, List.length_map, List.length_range, hrange]
  have hdiv : df.rows.length / chunkSize = m := by
    rw [hn]
    simp only [chunkSize]
    omega
  refine ⟨hlen, by rw [hdiv, hlen], ?_⟩
  rw [parquetProgress_events, List.getLast?_map, List.getLast?_range, hrange,
    if_neg (by omega)]
  simp only [Option.map_some']
  rw [hdiv]
  have hm1 : m - 1 + 1 = m := by omega
  rw [hm1]

/-- C9 witness: the off-by-one theorem applied to the concrete
one-full-chunk frame (100000 rows, m = 1): the only progress line reads
"chunk 1 of 2". -/
theorem c9_witness :
    0 < 1 ∧ bigDf.rows.length = 1 * chunkSize
    ∧ ((parquetProgress (ingestParquetEvents sampleParams bigDf)).length = 1
      ∧ bigDf.rows.length / chunkSize + 1
          = (parquetProgress (ingestParquetEvents sampleParams bigDf)).length + 1
      ∧ (parquetProgress (ingestParquetEvents sampleParams bigDf)).getLast?
          = some (1, 2)) :=
  ⟨Nat.one_pos, by rw [bigDf_rows_length]; rfl,
    c9_progress_total_off_by_one sampleParams bigDf 1 Nat.one_pos
      (by rw [bigDf_rows_length]; rfl)⟩

/-- C10: for a source file with zero data rows the loop runs zero
iterations on both paths: no SQL operation is issued, any pre-existing
destination table is left completely unchanged, and the trace still ends
with the success message. -/
theorem c10_empty_source_no_writes (p : Params) (df : DataFrame) (f : CsvFile)
    (init : Option Table) (hdf : df.rows = []) (hf : f.rows = []) :
    sqlOps (ingestParquetEvents p df) = []
    ∧ sqlOps (ingestCsvEvents p f) = []
    ∧ runOps init (sqlOps (ingestParquetEvents p df)) = init
    ∧ runOps init (sqlOps (ingestCsvEvents p f)) = init
    ∧ (ingestParquetEvents p df).getLast? = some Event.printSuccess
    ∧ (ingestCsvEvents p f).getLast? = some Event.printSuccess := by
  have h1 : sqlOps (ingestParquetEvents p df) = [] := by
    rw [sqlOps_parquet]
    have hT : parquetTransformRows df = [] := by
      simp [parquetTransformRows, hdf]
    rw [hT, chunksOf_nil, loopSql_nil]
  have h2 : sqlOps (ingestCsvEvents p f) = [] := by
    rw [sqlOps_csv, hf]
    simp only [List.map_nil]
    rw [chunksOf_nil, loopSql_nil]
  refine ⟨h1, h2, by rw [h1]; rfl, by rw [h2]; rfl,
    ingestParquetEvents_getLast p df, ingestCsvEvents_getLast p f⟩

/-- C10 witness: the empty-source theorem applied to concrete empty inputs
and a concrete pre-existing table. -/
theorem c10_witness :
    emptyDf.rows = [] ∧ emptyCsv.rows = []
    ∧ (sqlOps (ingestParquetEvents sampleParams emptyDf) = []
      ∧ sqlOps (ingestCsvEvents sampleParams emptyCsv) = []
      ∧ runOps (some ⟨["old"], [[Value.raw "0"]]⟩)
          (sqlOps (ingestParquetEvents sampleParams emptyDf))
          = some ⟨["old"], [[Value.raw "0"]]⟩
      ∧ runOps (some ⟨["old"], [[Value.raw "0"]]⟩)
          (sqlOps (ingestCsvEvents sampleParams emptyCsv))
          = some ⟨["old"], [[Value.raw "0"]]⟩
      ∧ (ingestParquetEvents sampleParams emptyDf).getLast?
          = some Event.printSuccess
      ∧ (ingestCsvEvents sampleParams emptyCsv).getLast?
          = some Event.printSuccess) :=
  ⟨rfl, rfl,
    c10_empty_source_no_writes sampleParams emptyDf emptyCsv
      (some ⟨["old"], [[Value.raw "0"]]⟩) rfl rfl⟩

end IngestData
